import Mathlib

/-!
# TubeSync — verification of the upload orchestration engine

Shallow embedding of the core of `tubesync_synology.py` and
`tubesync_watcher.py`:

* the SQLite `uploads` ledger (`db_upsert`, `db_get`),
* the quota pause file (`set_pause`, `check_pause`),
* error-reason parsing and quota classification
  (`_parse_error_reasons`, `_is_quota_reason`),
* the resumable chunked upload loop (`resumable_upload`),
* hydration/reconciliation (`fetch_existing_titles`),
* revalidation of `done` entries (`revalidate_done_entries`),
* the per-file body of `main`'s loop and the whole orchestration pass,
* the debounced runner of the watcher (`trigger` / `_maybe_run`).

Modelling conventions.  Clock values (`time.time()` readings, pause
timestamps, debounce instants) are integers: every property proved below is
about comparisons and sums of clock values, none depends on fractional
clock resolution.  File modification times keep their sub-second part
explicitly (`Mtime` below), because `main` compares them at integer-second
granularity via `int(...)`.  Python's `str.lower`/`str.strip` are given
executable character-list definitions (`pyLower`, `pyStrip`).  External
effects (stat, the YouTube API, the upload transport) are passed in as
explicit oracles / event traces.  Files are assumed stable for the duration
of one pass (the source re-stats a file inside its error handler; the model
reuses the scan-time stat, which is irrelevant to every property proved
below, none of which constrains the size/mtime stored by the error path).
-/

namespace TubeSync

/-- A clock timestamp (`time.time()` reading), at integer resolution. -/
abbrev Time : Type := Int

/-- A file modification time `st_mtime`: whole seconds plus an abstract
sub-second remainder (zero for a float that is a whole number of seconds).
`stat` mtimes are nonnegative, so Python `int(mtime)` truncates to `sec`. -/
structure Mtime where
  sec : Int
  frac : Nat
deriving DecidableEq

/-- Python `str.lower()` (ASCII case folding, which is all the quota
markers and title matching need). -/
def pyLower (s : String) : String :=
  String.mk (s.toList.map Char.toLower)

/-- Python `str.strip()`: remove leading and trailing whitespace. -/
def pyStrip (s : String) : String :=
  String.mk (((s.toList.dropWhile Char.isWhitespace).reverse.dropWhile
    Char.isWhitespace).reverse)

/-- One row of the `uploads` table (sans the autoincrement id).
`size`/`mtime` are nullable because `revalidate_done_entries` writes NULLs
when a stat fails. -/
structure Row where
  size : Option Int
  mtime : Option Mtime
  sha1 : Option String
  status : String
  video_id : Option String
  error : Option String
  created_at : Time
  updated_at : Time
deriving DecidableEq

/-- The `uploads` table: association list from `path` to its row.
`path` is `UNIQUE` in the schema; `db_upsert` below never creates a second
entry for an existing path. -/
abbrev Ledger : Type := List (String × Row)

/-- `db_get`: `SELECT ... FROM uploads WHERE path = ?`. -/
def db_get (db : Ledger) (path : String) : Option Row :=
  List.lookup path db

/-- `UPDATE`-semantics on the association list: rewrite the value at key
`p` through `upd`, leaving other keys alone. -/
def updList {β : Type} (p : String) (upd : β → β) : List (String × β) → List (String × β)
  | [] => []
  | (a, b) :: t => (if a = p then (a, upd b) else (a, b)) :: updList p upd t

/-- `db_upsert`: `INSERT ... ON CONFLICT(path) DO UPDATE SET` every column
except `created_at` (and the id); `updated_at` is set to `now` in both
branches, `created_at` only on first insert. -/
def db_upsert (db : Ledger) (now : Time) (path : String) (size : Option Int)
    (mtime : Option Mtime) (sha1 : Option String) (status : String)
    (video_id : Option String) (error : Option String) : Ledger :=
  match List.lookup path db with
  | some _ =>
      updList path (fun r =>
        { size := size, mtime := mtime, sha1 := sha1, status := status,
          video_id := video_id, error := error,
          created_at := r.created_at, updated_at := now }) db
  | none =>
      db ++ [(path, { size := size, mtime := mtime, sha1 := sha1, status := status,
                      video_id := video_id, error := error,
                      created_at := now, updated_at := now })]

/-- `set_pause`: writes `time.time() + max(1, int(minutes)) * 60` to the
pause file and returns it. -/
def set_pause (now : Time) (minutes : Int) : Time :=
  now + max 1 minutes * 60

/-- `check_pause`: the pause file's content, if any, is the `until` value;
return it while `now < until`, otherwise the file is deleted and the pass
is not paused.  The model takes the parsed file content as `Option Time`. -/
def check_pause (pauseFile : Option Time) (now : Time) : Option Time :=
  match pauseFile with
  | some u => if now < u then some u else none
  | none => none

/-! ## Error classification and the resumable upload loop -/

/-- Structural content of an `HttpError` / `ResumableUploadError`:
`statusCode` is `e.resp.status` (absent when there is no response object),
`errorsReasons` the `reason` strings under `error.errors` of the JSON body,
`detailsReasons` those under `error.details` (consulted only when present
and the first list yielded nothing), and `message` is `str(e)`. -/
structure HErr where
  statusCode : Option Nat
  errorsReasons : List String
  hasDetails : Bool
  detailsReasons : List String
  message : String
deriving DecidableEq

/-- The known quota markers, already lowercase as in the source tuple. -/
def quotaKeys : List String :=
  ["quotaexceeded", "userratelimitexceeded", "dailylimitexceeded", "uploadlimitexceeded"]

/-- `needle in hay` on Python strings: substring containment. -/
def strContains (hay needle : String) : Bool :=
  (List.range (hay.toList.length + 1)).any
    (fun i => needle.toList.isPrefixOf (hay.toList.drop i))

/-- `_parse_error_reasons`: lowercased non-empty reasons from the structured
body (`error.errors`, falling back to `error.details` when the former gives
nothing), plus every quota marker that occurs, case-insensitively, in
`str(exc)`.  The Python set is modelled as a list; only membership and the
sorted deduplicated join are ever used. -/
def parse_error_reasons (e : HErr) : List String :=
  let fromErrors := (e.errorsReasons.map pyLower).filter (fun r => r ≠ "")
  let structured :=
    if fromErrors = [] && e.hasDetails then
      (e.detailsReasons.map pyLower).filter (fun r => r ≠ "")
    else fromErrors
  structured ++ quotaKeys.filter (fun k => strContains (pyLower e.message) k)

/-- `_is_quota_reason`: does the reason set contain a quota marker? -/
def is_quota_reason (reasons : List String) : Bool :=
  quotaKeys.any (fun k => k ∈ reasons)

/-- Lexicographic code-point comparison of character lists (Python string
ordering). -/
def charListLe : List Char → List Char → Bool
  | [], _ => true
  | _ :: _, [] => false
  | x :: xs, y :: ys =>
      if x = y then charListLe xs ys else decide (x.toNat < y.toNat)

/-- Python `a <= b` on strings. -/
def pyStrLe (a b : String) : Bool := charListLe a.toList b.toList

/-- Insertion sort step for strings (used to model Python `sorted`). -/
def insertSorted (x : String) : List String → List String
  | [] => [x]
  | y :: ys => if pyStrLe x y then x :: y :: ys else y :: insertSorted x ys

/-- `sorted(set(rs))`: deduplicate, then sort ascending. -/
def sortedDedup (rs : List String) : List String :=
  (rs.foldl (fun acc x => if x ∈ acc then acc else acc ++ [x]) []).foldr insertSorted []

/-- `",".join(strs)` as a character list. -/
def joinCommaChars : List String → List Char
  | [] => []
  | [x] => x.toList
  | x :: xs => x.toList ++ ',' :: joinCommaChars xs

/-- `",".join(sorted(reasons)) or "quotaExceeded"`. -/
def joinReasons (rs : List String) : String :=
  let s := String.mk (joinCommaChars (sortedDedup rs))
  if s = "" then "quotaExceeded" else s

/-- `(sc in (400, 403, 429)) and _is_quota_reason(reasons)`: the guard for
the immediate `QuotaExceeded` raise in `resumable_upload`. -/
def isQuotaHttp (e : HErr) : Bool :=
  (e.statusCode == some 400 || e.statusCode == some 403 || e.statusCode == some 429)
    && is_quota_reason (parse_error_reasons e)

/-- `sc in (500, 502, 503, 504)`: the transient-retry status guard. -/
def isTransientStatus (e : HErr) : Bool :=
  e.statusCode == some 500 || e.statusCode == some 502
    || e.statusCode == some 503 || e.statusCode == some 504

/-- One observed outcome of a `request.next_chunk()` call. -/
inductive ChunkEvent where
  | progress
  | complete (resp : List (String × String))
  | httpErr (e : HErr)
  | otherErr (msg : String)
deriving DecidableEq

/-- How the upload loop ends. `ok` is a returned video id.
`returnedNone` is the implicit `return None`: a final response without
`"id"` raises `RuntimeError`, the generic handler with budget left sleeps
and continues, but `response` is no longer `None`, so the `while` loop
exits and the function falls off its end.  `quotaExceeded` is the
distinguished exception, `fatalHttp`/`fatalOther`/`unexpectedResponse` a
re-raised error (the latter the `RuntimeError` once the budget is
exhausted), and `exhausted` marks a transport trace too short to decide
the loop. -/
inductive UploadResult where
  | ok (id : String)
  | returnedNone
  | quotaExceeded (reason : String)
  | fatalHttp (e : HErr)
  | fatalOther (msg : String)
  | unexpectedResponse
  | exhausted
deriving DecidableEq

/-- The `while response is None` loop of `resumable_upload`, with
`backoff = 2` and the running `retry` counter.  The second component of the
result is the list of `time.sleep` durations performed (`2 ** retry` after
each increment), recording the backoff schedule.  On a response without
`"id"` the raised `RuntimeError` is caught by the generic handler: with
budget left it sleeps once and continues, whereupon the non-`None`
`response` ends the loop and the function returns `None`; past the budget
it is re-raised. -/
def resumable_upload (max_retries : Nat) : Nat → List ChunkEvent → UploadResult × List Nat
  | _, [] => (UploadResult.exhausted, [])
  | retry, ChunkEvent.progress :: rest => resumable_upload max_retries retry rest
  | retry, ChunkEvent.complete resp :: _ =>
      match List.lookup "id" resp with
      | some vid => (UploadResult.ok vid, [])
      | none =>
          if retry < max_retries then (UploadResult.returnedNone, [2 ^ (retry + 1)])
          else (UploadResult.unexpectedResponse, [])
  | retry, ChunkEvent.httpErr e :: rest =>
      if isQuotaHttp e then
        (UploadResult.quotaExceeded (joinReasons (parse_error_reasons e)), [])
      else if isTransientStatus e && decide (retry < max_retries) then
        let r := resumable_upload max_retries (retry + 1) rest
        (r.1, 2 ^ (retry + 1) :: r.2)
      else (UploadResult.fatalHttp e, [])
  | retry, ChunkEvent.otherErr msg :: rest =>
      if retry < max_retries then
        let r := resumable_upload max_retries (retry + 1) rest
        (r.1, 2 ^ (retry + 1) :: r.2)
      else (UploadResult.fatalOther msg, [])

/-! ## Hydration, revalidation and the orchestration pass -/

/-- Python dict assignment `titles[title] = vid` over an association list:
replace the value if the key is present, else append. -/
def dictInsert (m : List (String × String)) (k v : String) : List (String × String) :=
  if (List.lookup k m).isSome then
    m.map (fun e => if e.1 = k then (k, v) else e)
  else m ++ [(k, v)]

/-- `fetch_existing_titles`: fold over all playlist items, keeping
`(sn.title or "").strip().lower()` mapped to the `videoId`, skipping entries
with a falsy (empty/absent) title or id.  Input: the `(title, videoId?)`
pairs of the Uploads playlist in page order. -/
def fetch_existing_titles (items : List (String × Option String)) :
    List (String × String) :=
  items.foldl (fun acc it =>
    let title := pyLower (pyStrip it.1)
    match it.2 with
    | some vid => if title ≠ "" && vid ≠ "" then dictInsert acc title vid else acc
    | none => acc) []

/-- The fixed note `revalidate_done_entries` stores in the `error` column. -/
def revalNote : String := "Missing on YouTube; scheduled for re-upload"

/-- The `(path, video_id)` rows selected by
`SELECT path, video_id FROM uploads WHERE status='done' AND video_id IS NOT NULL`. -/
def doneRows (db : Ledger) : List (String × String) :=
  db.filterMap (fun e =>
    match e.2.video_id with
    | some vid => if e.2.status = "done" then some (e.1, vid) else none
    | none => none)

/-- `revalidate_done_entries`.  `exO vid = true` iff the batched
`videos.list` existence check reports `vid` as existing; `stO p` is
`Path(p).stat()` giving `(st_size, st_mtime)`, `none` on failure.  Rows
whose id is falsy (`""`) are never submitted to the check (`if vid`) and so
never marked missing.  Gated on `reupload_if_missing_on_youtube`. -/
def revalidate (flag : Bool) (exO : String → Bool)
    (stO : String → Option (Int × Mtime)) (now : Time) (db : Ledger) : Ledger :=
  if flag then
    (doneRows db).foldl (fun acc pr =>
      if pr.2 ≠ "" && !(exO pr.2) then
        db_upsert acc now pr.1 ((stO pr.1).map Prod.fst) ((stO pr.1).map Prod.snd)
          none "pending" none (some revalNote)
      else acc) db
  else db

/-- The configuration options consulted by the modelled part of `main`. -/
structure Config where
  use_sha1 : Bool
  hydrate : Bool
  reupload_flag : Bool
  quota_cooldown_minutes : Int
deriving DecidableEq

/-- A discovered candidate file: its path, `p.stem`, stat data, and the
value `sha1_of_file` would produce. -/
structure FileInfo where
  path : String
  stem : String
  size : Int
  mtime : Mtime
  hashVal : String
deriving DecidableEq

/-- `sha1 = sha1_of_file(p) if use_sha1 else None`. -/
def sha1val (cfg : Config) (f : FileInfo) : Option String :=
  if cfg.use_sha1 then some f.hashVal else none

/-- `title_key = p.stem.strip().lower()`. -/
def titleKey (f : FileInfo) : String := pyLower (pyStrip f.stem)

/-- The `unchanged` test of `main`:
`old_size == size and int(old_mtime) == int(mtime) and (not use_sha1 or old_sha1 == sha1)`.
`int(...)` on the nonnegative mtimes is the `sec` component.  A row with
`size` set but `mtime` NULL is never written by the program, so the
short-circuit of the Python conjunction never reaches `int(None)`. -/
def unchangedRow (cfg : Config) (row : Row) (f : FileInfo) : Bool :=
  row.size == some f.size && row.mtime.map Mtime.sec == some f.mtime.sec
    && (!cfg.use_sha1 || row.sha1 == sha1val cfg f)

/-- What `resumable_upload` does for a given file, as seen by `main`'s
`try` block: a normal return (`some id`, or `none` when the loop fell
through after an id-less final response with budget left), a
`QuotaExceeded`, or another exception. -/
inductive POutcome where
  | success (vid : Option String)
  | quota (reason : String)
  | failure (msg : String)
deriving DecidableEq

/-- Which branch of the loop body handled the file.  An `uploaded none`
records the NULL `video_id` that a `None`-returning upload stores. -/
inductive Action where
  | skipped
  | markedDone (vid : String)
  | uploaded (vid : Option String)
  | quotaStop (reason : String)
  | errored (msg : String)
deriving DecidableEq

/-- Whether the branch invoked the Transfer Engine (`resumable_upload`). -/
def Action.invoked : Action → Bool
  | Action.skipped => false
  | Action.markedDone _ => false
  | _ => true

/-- The body of `main`'s `for p in discover_files(...)` loop for one file:
skip if `done` and unchanged; else mark done from the hydration map on a
title match; else upsert `pending`, call the uploader and record its
outcome (`done` with whatever — possibly `None` — id it returned, nothing
beyond `pending` on `QuotaExceeded`, `error` with the message otherwise). -/
def processFile (cfg : Config) (map : List (String × String)) (db : Ledger)
    (now : Time) (f : FileInfo) (outcome : POutcome) : Ledger × Action :=
  let sha1 := sha1val cfg f
  let doUpload : Ledger × Action :=
    let db1 := db_upsert db now f.path (some f.size) (some f.mtime) sha1 "pending" none none
    match outcome with
    | POutcome.success vid =>
        (db_upsert db1 now f.path (some f.size) (some f.mtime) sha1 "done" vid none,
         Action.uploaded vid)
    | POutcome.quota r => (db1, Action.quotaStop r)
    | POutcome.failure msg =>
        (db_upsert db1 now f.path (some f.size) (some f.mtime) sha1 "error" none (some msg),
         Action.errored msg)
  let afterSkip : Ledger × Action :=
    if cfg.hydrate then
      match List.lookup (titleKey f) map with
      | some vid =>
          (db_upsert db now f.path (some f.size) (some f.mtime) sha1 "done" (some vid) none,
           Action.markedDone vid)
      | none => doUpload
    else doUpload
  match List.lookup f.path db with
  | some row =>
      if row.status == "done" && unchangedRow cfg row f then (db, Action.skipped)
      else afterSkip
  | none => afterSkip

/-- The whole `for` loop: files handled in order; a `QuotaExceeded` sets
the pause file via `set_pause(cfg, quota_cooldown_minutes)` and stops the
run immediately (remaining files untouched).  Returns the final ledger, the
pause timestamp written (if any) and the paths for which the Transfer
Engine was invoked. -/
def runFiles (cfg : Config) (map : List (String × String))
    (oracle : FileInfo → POutcome) (now : Time) :
    Ledger → List FileInfo → Ledger × Option Time × List String
  | db, [] => (db, none, [])
  | db, f :: rest =>
      let r := processFile cfg map db now f (oracle f)
      match r.2 with
      | Action.quotaStop _ =>
          (r.1, some (set_pause now cfg.quota_cooldown_minutes), [f.path])
      | a =>
          let tail := runFiles cfg map oracle now r.1 rest
          (tail.1, tail.2.1, if a.invoked then f.path :: tail.2.2 else tail.2.2)

/-- Result of one invocation of the uploader process (`main`). -/
structure MainResult where
  db : Ledger
  pause : Option Time
  uploads : List String
  ran : Bool
deriving DecidableEq

/-- One orchestration pass (`main` without logging/email): the pause gate
first — while paused the invocation is a clean no-op — then revalidation of
`done` rows, then hydration of the remote title map, then the file loop. -/
def mainPass (cfg : Config) (now : Time) (pauseFile : Option Time)
    (exO : String → Bool) (stO : String → Option (Int × Mtime))
    (remoteItems : List (String × Option String))
    (oracle : FileInfo → POutcome) (files : List FileInfo) (db : Ledger) : MainResult :=
  match check_pause pauseFile now with
  | some u => { db := db, pause := some u, uploads := [], ran := false }
  | none =>
      let db1 := revalidate cfg.reupload_flag exO stO now db
      let map := if cfg.hydrate then fetch_existing_titles remoteItems else []
      let r := runFiles cfg map oracle now db1 files
      { db := r.1, pause := r.2.1, uploads := r.2.2, ran := true }

/-! ## The watcher's debounced runner -/

/-- The debounce parameters of `DebouncedRunner`. -/
structure WatchCfg where
  debounce : Time
  settle : Time
  max_debounce : Time
deriving DecidableEq

/-- The runner's mutable state: the pending timer's fire deadline (if a
timer is armed) and the first/last event timestamps of the current burst. -/
structure RunnerState where
  timer : Option Time
  first : Option Time
  last : Option Time
deriving DecidableEq

/-- `DebouncedRunner.trigger`: ignored while the pause flag exists;
otherwise record the event time (setting `first` only if unset), cancel any
armed timer and arm one for `debounce` seconds from now. -/
def trigger (paused : Bool) (cfg : WatchCfg) (now : Time) (s : RunnerState) :
    RunnerState :=
  if paused then s
  else
    { timer := some (now + cfg.debounce),
      first := match s.first with
               | none => some now
               | some t => some t,
      last := some now }

/-- `DebouncedRunner._maybe_run`, invoked when the armed timer fires (the
timer is consumed).  Runs the pass — and clears the burst window — when the
settle period has elapsed since the last event or the hard ceiling has
elapsed since the first; otherwise re-arms the timer.  Mirrors the Python
truthiness of `self._first_event_ts or time.time()` (a `0` first-event
timestamp falls back to `now`). -/
def maybe_run (paused : Bool) (cfg : WatchCfg) (now : Time) (s : RunnerState) :
    RunnerState × Bool :=
  if paused then ({ s with timer := none }, false)
  else
    match s.last with
    | none => ({ s with timer := none }, false)
    | some l =>
        let f := match s.first with
                 | some t => if t = 0 then now else t
                 | none => now
        if cfg.settle ≤ now - l ∨ cfg.max_debounce ≤ now - f then
          ({ timer := none, first := none, last := none }, true)
        else
          ({ s with timer := some (now + cfg.debounce) }, false)

/-! ## The ledger field invariant -/

/-- The spec's claimed per-row invariant, exactly as stated:
`remoteId` set iff `done`, `lastError` set iff `error`. -/
def RowInvClaimed (r : Row) : Prop :=
  (r.video_id.isSome = true ↔ r.status = "done")
    ∧ (r.error.isSome = true ↔ r.status = "error")

instance (r : Row) : Decidable (RowInvClaimed r) := by
  unfold RowInvClaimed; infer_instance

/-- The invariant the code actually maintains: a set `remoteId` implies
status `done` (the converse fails: an upload returning `None` after an
id-less final response stores a `done` row with NULL `video_id`), and
`lastError` is set iff the status is `error` — or the row is the
revalidation reset, which stores its explanatory note in the `error`
column of a `pending` row.  No row is ever `done` with `lastError` set or
`error` with `remoteId` set. -/
def RowOkFields (status : String) (video_id error : Option String) : Prop :=
  (video_id.isSome = true → status = "done")
    ∧ (error.isSome = true ↔ (status = "error" ∨ (status = "pending" ∧ error = some revalNote)))

/-- `RowOkFields` for a row's own fields. -/
def RowOk (r : Row) : Prop := RowOkFields r.status r.video_id r.error

instance (st : String) (vid err : Option String) : Decidable (RowOkFields st vid err) := by
  unfold RowOkFields; infer_instance

instance (r : Row) : Decidable (RowOk r) := by
  unfold RowOk; infer_instance

/-- Every row of the ledger satisfies the maintained invariant. -/
def LedgerOk (db : Ledger) : Prop := ∀ pr ∈ db, RowOk pr.2

instance (db : Ledger) : Decidable (LedgerOk db) := by
  unfold LedgerOk; infer_instance


/-- A transport error whose body carries a quota reason but whose HTTP
status is 500: quota-classified by `_parse_error_reasons`, yet outside the
`(400, 403, 429)` tuple guarding the `QuotaExceeded` raise. -/
def errQuota500 : HErr := ⟨some 500, ["quotaExceeded"], false, [], ""⟩

/-- A plain 404 `HttpError`: not quota-classified, not 5xx. -/
def errNotFound404 : HErr := ⟨some 404, [], false, [], "not found"⟩

/-- A 403 with a structured rate-limit reason. -/
def errRate403 : HErr := ⟨some 403, ["userRateLimitExceeded"], false, [], ""⟩

/-- A 500 with no quota reason: the transient case. -/
def errServer500 : HErr := ⟨some 500, [], false, [], "backend error"⟩


/-! ## Concrete fixtures used by counterexamples and witnesses -/

/-- A candidate file `/v/a.mp4`, 10 bytes, mtime 5 s (whole). -/
def fileA : FileInfo := ⟨"/v/a.mp4", "a", 10, ⟨5, 0⟩, "h"⟩

/-- A `done` ledger row for `fileA`'s path matching its size and mtime at
integer-second granularity (sub-second parts differ). -/
def rowDoneA : Row := ⟨some 10, some ⟨5, 3⟩, none, "done", some "xyz", none, 0, 0⟩

/-- A `done` row holding remote id `"xyz"`. -/
def rowDoneXyz : Row := ⟨some 1, some ⟨1, 0⟩, none, "done", some "xyz", none, 0, 0⟩

/-- Hydration off, sha1 off, revalidation off, zero cooldown minutes. -/
def cfgPlain : Config := ⟨false, false, false, 0⟩

/-- Hydration on, sha1 off, revalidation off, default cooldown. -/
def cfgHydrate : Config := ⟨false, true, false, 120⟩

/-- Revalidation on, everything else off. -/
def cfgReval : Config := ⟨false, false, true, 120⟩

/-- The local file `vacation clip.mp4` of the reconciliation scenario. -/
def fileVacation : FileInfo := ⟨"/v/vacation clip.mp4", "vacation clip", 10, ⟨5, 0⟩, "h"⟩

/-- The same file with surrounding whitespace in its stem. -/
def fileVacationPadded : FileInfo :=
  ⟨"/v/ vacation clip .mp4", " vacation clip ", 10, ⟨5, 0⟩, "h"⟩

/-- The row the revalidation reset writes for `rowDoneXyz` at time 5 when
the stat oracle fails: NULL size/mtime, `pending`, the note in `error`. -/
def rowAfterReval : Row := ⟨none, none, none, "pending", none, some revalNote, 0, 5⟩

/-- The row `main` writes for `fileA` at time 7 when `resumable_upload`
returns `None`: status `done` with NULL `video_id`. -/
def rowDoneNoneVid : Row := ⟨some 10, some ⟨5, 0⟩, none, "done", none, none, 7, 7⟩


/-! ## Association-list and upsert lemmas -/

theorem lookup_append {α β : Type} [BEq α] (a : α) (l₁ l₂ : List (α × β)) :
    List.lookup a (l₁ ++ l₂) = (List.lookup a l₁).or (List.lookup a l₂) := by
  induction l₁ with
  | nil => rfl
  | cons p t ih =>
      simp only [List.cons_append, List.lookup]
      split <;> simp [ih]

theorem lookup_eq_none_forall {β : Type} (a : String) (l : List (String × β)) :
    List.lookup a l = none ↔ ∀ p ∈ l, p.1 ≠ a := by
  induction l with
  | nil => simp
  | cons p t ih =>
      simp only [List.lookup, List.mem_cons]
      rcases h : a == p.1 with _ | _
      · simp only [beq_eq_false_iff_ne] at h
        constructor
        · intro hl q hq
          rcases hq with rfl | hq
          · exact fun hc => h hc.symm
          · exact (ih.1 hl) q hq
        · intro hall
          exact ih.2 (fun q hq => hall q (Or.inr hq))
      · simp only [beq_iff_eq] at h
        subst h
        constructor
        · intro hl; cases hl
        · intro hall; exact absurd rfl (hall p (Or.inl rfl))

theorem lookup_updList_self {β : Type} (p : String) (upd : β → β) (l : List (String × β)) :
    List.lookup p (updList p upd l) = (List.lookup p l).map upd := by
  induction l with
  | nil => rfl
  | cons q t ih =>
      obtain ⟨a, b⟩ := q
      by_cases hq : a = p
      · subst hq
        rw [show updList a upd ((a, b) :: t) = (a, upd b) :: updList a upd t from by
          rw [updList, if_pos rfl]]
        simp [List.lookup]
      · have hba : (p == a) = false := beq_eq_false_iff_ne.2 (fun hc => hq hc.symm)
        rw [show updList p upd ((a, b) :: t) = (a, b) :: updList p upd t from by
          rw [updList, if_neg hq]]
        simp [List.lookup, hba, ih]

theorem lookup_updList_other {β : Type} (p q : String) (hpq : q ≠ p) (upd : β → β)
    (l : List (String × β)) :
    List.lookup q (updList p upd l) = List.lookup q l := by
  induction l with
  | nil => rfl
  | cons r t ih =>
      obtain ⟨a, b⟩ := r
      by_cases hr : a = p
      · subst hr
        have hqa : (q == a) = false := beq_eq_false_iff_ne.2 hpq
        rw [show updList a upd ((a, b) :: t) = (a, upd b) :: updList a upd t from by
          rw [updList, if_pos rfl]]
        simp [List.lookup, hqa, ih]
      · rw [show updList p upd ((a, b) :: t) = (a, b) :: updList p upd t from by
          rw [updList, if_neg hr]]
        cases hqa : q == a <;> simp [List.lookup, hqa, ih]

theorem mem_updList {β : Type} (p : String) (upd : β → β) (l : List (String × β))
    (x : String × β) (h : x ∈ updList p upd l) :
    x ∈ l ∨ ∃ e, e ∈ l ∧ x = (e.1, upd e.2) := by
  induction l with
  | nil => cases h
  | cons r t ih =>
      obtain ⟨a, b⟩ := r
      by_cases hr : a = p
      · rw [updList, if_pos hr] at h
        rcases List.mem_cons.1 h with rfl | h'
        · exact Or.inr ⟨(a, b), List.mem_cons_self _ _, rfl⟩
        · rcases ih h' with h'' | ⟨e, he, hx⟩
          · exact Or.inl (List.mem_cons_of_mem _ h'')
          · exact Or.inr ⟨e, List.mem_cons_of_mem _ he, hx⟩
      · rw [updList, if_neg hr] at h
        rcases List.mem_cons.1 h with rfl | h'
        · exact Or.inl (List.mem_cons_self _ _)
        · rcases ih h' with h'' | ⟨e, he, hx⟩
          · exact Or.inl (List.mem_cons_of_mem _ h'')
          · exact Or.inr ⟨e, List.mem_cons_of_mem _ he, hx⟩

/-- After an upsert, looking up the upserted path sees exactly the written
fields (only `created_at` depends on the pre-state). -/
theorem upsert_lookup_self (db : Ledger) (now : Time) (path : String)
    (size : Option Int) (mtime : Option Mtime) (sha1 : Option String) (status : String)
    (video_id : Option String) (error : Option String) :
    (List.lookup path (db_upsert db now path size mtime sha1 status video_id error)).map
        (fun r => (r.size, r.mtime, r.sha1, r.status, r.video_id, r.error, r.updated_at))
      = some (size, mtime, sha1, status, video_id, error, now) := by
  cases hl : List.lookup path db with
  | some r₀ =>
      simp only [db_upsert, hl]
      rw [lookup_updList_self path
        (fun r => { size := size, mtime := mtime, sha1 := sha1, status := status,
                    video_id := video_id, error := error,
                    created_at := r.created_at, updated_at := now }) db, hl]
      rfl
  | none =>
      simp only [db_upsert, hl]
      rw [lookup_append, hl]
      simp [List.lookup]

/-- Upserting one path does not disturb the row stored at another. -/
theorem upsert_lookup_other (db : Ledger) (now : Time) (path q : String) (hq : q ≠ path)
    (size : Option Int) (mtime : Option Mtime) (sha1 : Option String) (status : String)
    (video_id : Option String) (error : Option String) :
    List.lookup q (db_upsert db now path size mtime sha1 status video_id error)
      = List.lookup q db := by
  cases hl : List.lookup path db with
  | some r₀ =>
      simp only [db_upsert, hl]
      exact lookup_updList_other path q hq _ db
  | none =>
      simp only [db_upsert, hl]
      rw [lookup_append]
      have hqp : (q == path) = false := beq_eq_false_iff_ne.2 hq
      simp [List.lookup, hqp]

/-- Every entry of an upserted ledger is either an old entry or carries the
written `(status, video_id, error)` triple. -/
theorem mem_upsert (db : Ledger) (now : Time) (path : String)
    (size : Option Int) (mtime : Option Mtime) (sha1 : Option String) (status : String)
    (video_id : Option String) (error : Option String) (pr : String × Row)
    (h : pr ∈ db_upsert db now path size mtime sha1 status video_id error) :
    pr ∈ db ∨ (pr.2.status = status ∧ pr.2.video_id = video_id ∧ pr.2.error = error) := by
  rcases hl : List.lookup path db with _ | r₀ <;> simp only [db_upsert, hl] at h
  · rcases List.mem_append.1 h with h' | h'
    · exact Or.inl h'
    · right
      rcases List.mem_singleton.1 h' with rfl
      exact ⟨rfl, rfl, rfl⟩
  · rcases mem_updList _ _ _ _ h with h' | ⟨e, _, hx⟩
    · exact Or.inl h'
    · right
      rw [hx]
      exact ⟨rfl, rfl, rfl⟩

/-! ## Lemmas on the ledger field invariant -/

theorem rowOkFields_pending : RowOkFields "pending" none none := by decide

theorem rowOkFields_done (v : Option String) : RowOkFields "done" v none := by
  refine ⟨fun _ => rfl, ⟨fun h => absurd h (by decide), fun h => ?_⟩⟩
  rcases h with h | ⟨_, h2⟩
  · exact absurd h (by decide)
  · exact absurd h2 (by decide)

theorem rowOkFields_error (m : String) : RowOkFields "error" none (some m) := by
  refine ⟨fun h => absurd h (by decide),
    ⟨fun _ => Or.inl rfl, fun _ => rfl⟩⟩

theorem rowOkFields_revalnote : RowOkFields "pending" none (some revalNote) := by decide

/-- An upsert writing `RowOkFields`-satisfying fields preserves `LedgerOk`. -/
theorem ledgerOk_upsert (db : Ledger) (now : Time) (path : String)
    (size : Option Int) (mtime : Option Mtime) (sha1 : Option String) (status : String)
    (video_id : Option String) (error : Option String)
    (hok : RowOkFields status video_id error) (hdb : LedgerOk db) :
    LedgerOk (db_upsert db now path size mtime sha1 status video_id error) := by
  intro pr hpr
  rcases mem_upsert db now path size mtime sha1 status video_id error pr hpr with h | ⟨h1, h2, h3⟩
  · exact hdb pr h
  · unfold RowOk
    rw [h1, h2, h3]
    exact hok

/-- The revalidation fold only writes revalidation resets, which satisfy
the maintained invariant. -/
theorem ledgerOk_revalFold (exO : String → Bool) (stO : String → Option (Int × Mtime))
    (now : Time) (l : List (String × String)) :
    ∀ db : Ledger, LedgerOk db →
      LedgerOk (l.foldl (fun acc pr =>
        if pr.2 ≠ "" && !(exO pr.2) then
          db_upsert acc now pr.1 ((stO pr.1).map Prod.fst) ((stO pr.1).map Prod.snd)
            none "pending" none (some revalNote)
        else acc) db) := by
  induction l with
  | nil => exact fun db hdb => hdb
  | cons pr t ih =>
      intro db hdb
      rw [List.foldl_cons]
      by_cases hc : (pr.2 ≠ "" && !(exO pr.2)) = true
      · rw [if_pos hc]
        exact ih _ (ledgerOk_upsert _ _ _ _ _ _ _ _ _ rowOkFields_revalnote hdb)
      · rw [if_neg hc]
        exact ih _ hdb

/-- `revalidate_done_entries` preserves the maintained invariant. -/
theorem ledgerOk_revalidate (flag : Bool) (exO : String → Bool)
    (stO : String → Option (Int × Mtime)) (now : Time) (db : Ledger)
    (hdb : LedgerOk db) : LedgerOk (revalidate flag exO stO now db) := by
  by_cases hf : flag = true
  · rw [revalidate, if_pos hf]
    exact ledgerOk_revalFold exO stO now (doneRows db) db hdb
  · rw [revalidate, if_neg hf]
    exact hdb

/-- One loop iteration only writes invariant-satisfying rows. -/
theorem ledgerOk_processFile (cfg : Config) (map : List (String × String)) (db : Ledger)
    (now : Time) (f : FileInfo) (outcome : POutcome) (hdb : LedgerOk db) :
    LedgerOk (processFile cfg map db now f outcome).1 := by
  have hpend : LedgerOk (db_upsert db now f.path (some f.size) (some f.mtime)
      (sha1val cfg f) "pending" none none) :=
    ledgerOk_upsert _ _ _ _ _ _ _ _ _ rowOkFields_pending hdb
  unfold processFile
  dsimp only
  split
  · split
    · exact hdb
    · split
      · split
        · exact ledgerOk_upsert _ _ _ _ _ _ _ _ _ (rowOkFields_done _) hdb
        · split
          · exact ledgerOk_upsert _ _ _ _ _ _ _ _ _ (rowOkFields_done _) hpend
          · exact hpend
          · exact ledgerOk_upsert _ _ _ _ _ _ _ _ _ (rowOkFields_error _) hpend
      · split
        · exact ledgerOk_upsert _ _ _ _ _ _ _ _ _ (rowOkFields_done _) hpend
        · exact hpend
        · exact ledgerOk_upsert _ _ _ _ _ _ _ _ _ (rowOkFields_error _) hpend
  · split
    · split
      · exact ledgerOk_upsert _ _ _ _ _ _ _ _ _ (rowOkFields_done _) hdb
      · split
        · exact ledgerOk_upsert _ _ _ _ _ _ _ _ _ (rowOkFields_done _) hpend
        · exact hpend
        · exact ledgerOk_upsert _ _ _ _ _ _ _ _ _ (rowOkFields_error _) hpend
    · split
      · exact ledgerOk_upsert _ _ _ _ _ _ _ _ _ (rowOkFields_done _) hpend
      · exact hpend
      · exact ledgerOk_upsert _ _ _ _ _ _ _ _ _ (rowOkFields_error _) hpend

/-- The whole loop preserves the invariant. -/
theorem ledgerOk_runFiles (cfg : Config) (map : List (String × String))
    (oracle : FileInfo → POutcome) (now : Time) (db : Ledger) (files : List FileInfo)
    (hdb : LedgerOk db) : LedgerOk (runFiles cfg map oracle now db files).1 := by
  induction files generalizing db with
  | nil => exact hdb
  | cons f rest ih =>
      have h1 : LedgerOk (processFile cfg map db now f (oracle f)).1 :=
        ledgerOk_processFile cfg map db now f (oracle f) hdb
      rw [runFiles]
      dsimp only
      split
      · exact h1
      · exact ih _ h1

/-! ## Lemmas about revalidation -/

theorem lookup_mem {β : Type} (a : String) (l : List (String × β)) (b : β)
    (h : List.lookup a l = some b) : (a, b) ∈ l := by
  induction l with
  | nil => cases h
  | cons q t ih =>
      obtain ⟨x, y⟩ := q
      simp only [List.lookup] at h
      cases hax : a == x with
      | true =>
          rw [hax] at h
          obtain rfl := (beq_iff_eq).1 hax
          cases h
          exact List.mem_cons_self _ _
      | false =>
          rw [hax] at h
          exact List.mem_cons_of_mem _ (ih h)

/-- A `done` row with a non-NULL id is selected by the revalidation query. -/
theorem doneRows_mem (db : Ledger) (path : String) (row : Row) (vid : String)
    (hl : List.lookup path db = some row) (hst : row.status = "done")
    (hvid : row.video_id = some vid) : (path, vid) ∈ doneRows db := by
  have hmem : (path, row) ∈ db := lookup_mem path db row hl
  unfold doneRows
  apply List.mem_filterMap.2
  refine ⟨(path, row), hmem, ?_⟩
  rw [hvid]
  simp [hst]

/-- The selected keys are a subsequence of the ledger's keys. -/
theorem doneRows_keys_sublist (db : Ledger) :
    List.Sublist ((doneRows db).map Prod.fst) (db.map Prod.fst) := by
  induction db with
  | nil => exact List.Sublist.refl _
  | cons e t ih =>
      obtain ⟨a, r⟩ := e
      unfold doneRows at ih ⊢
      rw [List.filterMap_cons]
      dsimp only
      cases hv : r.video_id with
      | none =>
          simp only [hv, List.map_cons]
          exact List.sublist_cons_of_sublist _ ih
      | some vid =>
          by_cases hs : r.status = "done"
          · simp only [hv, if_pos hs, List.map_cons]
            exact List.Sublist.cons₂ _ ih
          · simp only [hv, if_neg hs, List.map_cons]
            exact List.sublist_cons_of_sublist _ ih

/-- The revalidation fold leaves paths outside its worklist untouched. -/
theorem revalFold_lookup_other (exO : String → Bool) (stO : String → Option (Int × Mtime))
    (now : Time) (l : List (String × String)) :
    ∀ (acc : Ledger) (path : String), path ∉ l.map Prod.fst →
      List.lookup path (l.foldl (fun acc pr =>
        if pr.2 ≠ "" && !(exO pr.2) then
          db_upsert acc now pr.1 ((stO pr.1).map Prod.fst) ((stO pr.1).map Prod.snd)
            none "pending" none (some revalNote)
        else acc) acc) = List.lookup path acc := by
  induction l with
  | nil => exact fun acc path _ => rfl
  | cons pr t ih =>
      intro acc path hpath
      rw [List.map_cons] at hpath
      have hne : path ≠ pr.1 := fun hc => hpath (by rw [hc]; exact List.mem_cons_self _ _)
      have ht : path ∉ t.map Prod.fst := fun hc => hpath (List.mem_cons_of_mem _ hc)
      rw [List.foldl_cons]
      by_cases hc : (pr.2 ≠ "" && !(exO pr.2)) = true
      · rw [if_pos hc, ih _ path ht, upsert_lookup_other _ _ _ _ hne]
      · rw [if_neg hc, ih _ path ht]

/-- After the revalidation fold, a worklist entry whose id the existence
check reports missing is stored as a `pending` row carrying the
explanatory note. -/
theorem revalFold_lookup_hit (exO : String → Bool) (stO : String → Option (Int × Mtime))
    (now : Time) (l : List (String × String)) :
    ∀ (acc : Ledger) (path vid : String), (path, vid) ∈ l → (l.map Prod.fst).Nodup →
      vid ≠ "" → exO vid = false →
      (List.lookup path (l.foldl (fun acc pr =>
        if pr.2 ≠ "" && !(exO pr.2) then
          db_upsert acc now pr.1 ((stO pr.1).map Prod.fst) ((stO pr.1).map Prod.snd)
            none "pending" none (some revalNote)
        else acc) acc)).map (fun r => (r.status, r.video_id, r.error))
        = some ("pending", none, some revalNote) := by
  induction l with
  | nil => intro _ _ _ h; cases h
  | cons pr t ih =>
      obtain ⟨p₀, v₀⟩ := pr
      intro acc path vid hmem hnd hvid hex
      rw [List.map_cons, List.nodup_cons] at hnd
      rw [List.foldl_cons]
      rcases List.mem_cons.1 hmem with heq | hmem'
      · rw [Prod.mk.injEq] at heq
        obtain ⟨rfl, rfl⟩ := heq
        have hc : ((path, vid).2 ≠ "" && !(exO (path, vid).2)) = true := by
          simp [hvid, hex]
        rw [if_pos hc]
        rw [revalFold_lookup_other exO stO now t _ path hnd.1]
        have hview := upsert_lookup_self acc now path ((stO path).map Prod.fst)
          ((stO path).map Prod.snd) none "pending" none (some revalNote)
        cases hlk : List.lookup path (db_upsert acc now path ((stO path).map Prod.fst)
            ((stO path).map Prod.snd) none "pending" none (some revalNote)) with
        | none => rw [hlk] at hview; cases hview
        | some r =>
            rw [hlk] at hview
            simp only [Option.map_some', Option.some.injEq, Prod.mk.injEq] at hview
            obtain ⟨_, _, _, h4, h5, h6, _⟩ := hview
            simp [h4, h5, h6]
      · have hp : path ≠ p₀ := by
          intro hc
          subst hc
          exact hnd.1 (List.mem_map.2 ⟨(path, vid), hmem', rfl⟩)
        by_cases hc : ((p₀, v₀).2 ≠ "" && !(exO (p₀, v₀).2)) = true
        · rw [if_pos hc]
          exact ih _ path vid hmem' hnd.2 hvid hex
        · rw [if_neg hc]
          exact ih _ path vid hmem' hnd.2 hvid hex

/-! ## Characterizations of the loop body -/

/-- The Boolean `unchanged`-and-`done` guard, spelled as propositions. -/
theorem skipCond_iff (cfg : Config) (row : Row) (f : FileInfo) :
    (row.status == "done" && unchangedRow cfg row f) = true
      ↔ (row.status = "done" ∧ row.size = some f.size
          ∧ row.mtime.map Mtime.sec = some f.mtime.sec
          ∧ (cfg.use_sha1 = false ∨ row.sha1 = sha1val cfg f)) := by
  unfold unchangedRow
  simp only [Bool.and_eq_true, beq_iff_eq, Bool.or_eq_true, Bool.not_eq_true']
  tauto

/-- When the guard holds, the file is skipped: ledger untouched. -/
theorem processFile_skip (cfg : Config) (map : List (String × String)) (db : Ledger)
    (now : Time) (f : FileInfo) (outcome : POutcome) (row : Row)
    (hl : List.lookup f.path db = some row)
    (hc : (row.status == "done" && unchangedRow cfg row f) = true) :
    processFile cfg map db now f outcome = (db, Action.skipped) := by
  unfold processFile
  dsimp only
  rw [hl]
  dsimp only
  rw [if_pos hc]

/-- The non-skip continuation (`afterSkip` in the model) never produces
the `skipped` action. -/
theorem processFile_afterSkip_ne_skipped (cfg : Config) (map : List (String × String))
    (db : Ledger) (now : Time) (f : FileInfo) (outcome : POutcome) (row : Row)
    (hl : List.lookup f.path db = some row)
    (hc : ¬(row.status == "done" && unchangedRow cfg row f) = true) :
    (processFile cfg map db now f outcome).2 ≠ Action.skipped := by
  unfold processFile
  dsimp only
  rw [hl]
  dsimp only
  rw [if_neg hc]
  split
  · split
    · intro h; cases h
    · split <;> intro h <;> cases h
  · split <;> intro h <;> cases h

/-- C5: a discovered file that already has a ledger row is skipped by the
pass — body untouched, no ledger write, no reconciliation or upload action
— exactly when the row has status `done`, its stored size equals the
current size, its stored mtime equals the current mtime at integer-second
granularity, and (strong fingerprinting disabled, or the stored hash
equals the current hash). -/
theorem C5_unchanged_skip_iff (cfg : Config) (map : List (String × String)) (db : Ledger)
    (now : Time) (f : FileInfo) (outcome : POutcome) (row : Row)
    (hl : List.lookup f.path db = some row) :
    processFile cfg map db now f outcome = (db, Action.skipped)
      ↔ (row.status = "done" ∧ row.size = some f.size
          ∧ row.mtime.map Mtime.sec = some f.mtime.sec
          ∧ (cfg.use_sha1 = false ∨ row.sha1 = sha1val cfg f)) := by
  constructor
  · intro h
    by_cases hc : (row.status == "done" && unchangedRow cfg row f) = true
    · exact (skipCond_iff cfg row f).1 hc
    · exact absurd (congrArg Prod.snd h)
        (processFile_afterSkip_ne_skipped cfg map db now f outcome row hl hc)
  · intro h
    exact processFile_skip cfg map db now f outcome row hl ((skipCond_iff cfg row f).2 h)

/-- When the file is not skipped and the hydration map has no match (or
hydration is off), a `QuotaExceeded` from the uploader leaves exactly the
pre-upload `pending` row and stops with the quota action. -/
theorem processFile_quota (cfg : Config) (map : List (String × String)) (db : Ledger)
    (now : Time) (f : FileInfo) (r : String)
    (hskip : ∀ row, List.lookup f.path db = some row →
      (row.status == "done" && unchangedRow cfg row f) = false)
    (hmap : cfg.hydrate = true → List.lookup (titleKey f) map = none) :
    processFile cfg map db now f (POutcome.quota r)
      = (db_upsert db now f.path (some f.size) (some f.mtime) (sha1val cfg f)
          "pending" none none, Action.quotaStop r) := by
  unfold processFile
  dsimp only
  have hafter :
      (if cfg.hydrate then
        match List.lookup (titleKey f) map with
        | some vid =>
            (db_upsert db now f.path (some f.size) (some f.mtime) (sha1val cfg f)
              "done" (some vid) none, Action.markedDone vid)
        | none =>
            (db_upsert db now f.path (some f.size) (some f.mtime) (sha1val cfg f)
              "pending" none none, Action.quotaStop r)
      else
        (db_upsert db now f.path (some f.size) (some f.mtime) (sha1val cfg f)
          "pending" none none, Action.quotaStop r))
      = (db_upsert db now f.path (some f.size) (some f.mtime) (sha1val cfg f)
          "pending" none none, Action.quotaStop r) := by
    by_cases hh : cfg.hydrate = true
    · rw [if_pos hh, hmap hh]
    · rw [if_neg hh]
  cases hl : List.lookup f.path db with
  | some row =>
      dsimp only
      rw [if_neg (by rw [hskip row hl]; exact Bool.false_ne_true)]
      exact hafter
  | none =>
      dsimp only
      exact hafter

/-- When the file is not skipped, hydration is on and the map matches the
title key, the row is marked done with the discovered id and the Transfer
Engine is not invoked. -/
theorem processFile_hydrated (cfg : Config) (map : List (String × String)) (db : Ledger)
    (now : Time) (f : FileInfo) (outcome : POutcome) (vid : String)
    (hskip : ∀ row, List.lookup f.path db = some row →
      (row.status == "done" && unchangedRow cfg row f) = false)
    (hh : cfg.hydrate = true)
    (hmap : List.lookup (titleKey f) map = some vid) :
    processFile cfg map db now f outcome
      = (db_upsert db now f.path (some f.size) (some f.mtime) (sha1val cfg f)
          "done" (some vid) none, Action.markedDone vid) := by
  unfold processFile
  dsimp only
  have hafter :
      (if cfg.hydrate then
        match List.lookup (titleKey f) map with
        | some vid' =>
            (db_upsert db now f.path (some f.size) (some f.mtime) (sha1val cfg f)
              "done" (some vid') none, Action.markedDone vid')
        | none =>
            (match outcome with
              | POutcome.success v =>
                  (db_upsert (db_upsert db now f.path (some f.size) (some f.mtime)
                      (sha1val cfg f) "pending" none none) now f.path (some f.size)
                      (some f.mtime) (sha1val cfg f) "done" v none,
                   Action.uploaded v)
              | POutcome.quota rr =>
                  (db_upsert db now f.path (some f.size) (some f.mtime)
                      (sha1val cfg f) "pending" none none, Action.quotaStop rr)
              | POutcome.failure msg =>
                  (db_upsert (db_upsert db now f.path (some f.size) (some f.mtime)
                      (sha1val cfg f) "pending" none none) now f.path (some f.size)
                      (some f.mtime) (sha1val cfg f) "error" none (some msg),
                   Action.errored msg))
      else
        (match outcome with
          | POutcome.success v =>
              (db_upsert (db_upsert db now f.path (some f.size) (some f.mtime)
                  (sha1val cfg f) "pending" none none) now f.path (some f.size)
                  (some f.mtime) (sha1val cfg f) "done" v none,
               Action.uploaded v)
          | POutcome.quota rr =>
              (db_upsert db now f.path (some f.size) (some f.mtime)
                  (sha1val cfg f) "pending" none none, Action.quotaStop rr)
          | POutcome.failure msg =>
              (db_upsert (db_upsert db now f.path (some f.size) (some f.mtime)
                  (sha1val cfg f) "pending" none none) now f.path (some f.size)
                  (some f.mtime) (sha1val cfg f) "error" none (some msg),
               Action.errored msg)))
      = (db_upsert db now f.path (some f.size) (some f.mtime) (sha1val cfg f)
          "done" (some vid) none, Action.markedDone vid) := by
    rw [if_pos hh, hmap]
  cases hl : List.lookup f.path db with
  | some row =>
      dsimp only
      rw [if_neg (by rw [hskip row hl]; exact Bool.false_ne_true)]
      exact hafter
  | none =>
      dsimp only
      exact hafter

/-- A quota failure on the first unprocessed file: the pass stops there,
writes the cooldown pause, and leaves later files untouched. -/
theorem runFiles_quota (cfg : Config) (map : List (String × String))
    (oracle : FileInfo → POutcome) (now : Time) (db : Ledger) (f : FileInfo)
    (rest : List FileInfo) (r : String)
    (hskip : ∀ row, List.lookup f.path db = some row →
      (row.status == "done" && unchangedRow cfg row f) = false)
    (hmap : cfg.hydrate = true → List.lookup (titleKey f) map = none)
    (horacle : oracle f = POutcome.quota r) :
    runFiles cfg map oracle now db (f :: rest)
      = (db_upsert db now f.path (some f.size) (some f.mtime) (sha1val cfg f)
          "pending" none none,
         some (set_pause now cfg.quota_cooldown_minutes), [f.path]) := by
  rw [runFiles]
  dsimp only
  rw [horacle, processFile_quota cfg map db now f r hskip hmap]

/-- A pass invoked while the pause file holds a future timestamp is a
no-op: no ledger write, no upload, early clean return. -/
theorem mainPass_paused (cfg : Config) (now : Time) (u : Time) (hnow : now < u)
    (exO : String → Bool) (stO : String → Option (Int × Mtime))
    (remoteItems : List (String × Option String)) (oracle : FileInfo → POutcome)
    (files : List FileInfo) (db : Ledger) :
    mainPass cfg now (some u) exO stO remoteItems oracle files db
      = { db := db, pause := some u, uploads := [], ran := false } := by
  unfold mainPass check_pause
  dsimp only
  rw [if_pos hnow]

/-! ## Lemmas for upsert idempotence -/

theorem updList_length {β : Type} (p : String) (upd : β → β) (l : List (String × β)) :
    (updList p upd l).length = l.length := by
  induction l with
  | nil => rfl
  | cons e t ih =>
      obtain ⟨a, b⟩ := e
      by_cases ha : a = p
      · rw [show updList p upd ((a, b) :: t) = (a, upd b) :: updList p upd t from by
          rw [updList, if_pos ha]]
        simp [ih]
      · rw [show updList p upd ((a, b) :: t) = (a, b) :: updList p upd t from by
          rw [updList, if_neg ha]]
        simp [ih]

theorem updList_congr {β : Type} (p : String) (upd₁ upd₂ : β → β) (l : List (String × β))
    (h : ∀ x ∈ l, x.1 = p → upd₁ x.2 = upd₂ x.2) :
    updList p upd₁ l = updList p upd₂ l := by
  induction l with
  | nil => rfl
  | cons e t ih =>
      obtain ⟨a, b⟩ := e
      have ht : updList p upd₁ t = updList p upd₂ t :=
        ih (fun x hx => h x (List.mem_cons_of_mem _ hx))
      by_cases ha : a = p
      · rw [show updList p upd₁ ((a, b) :: t) = (a, upd₁ b) :: updList p upd₁ t from by
            rw [updList, if_pos ha],
          show updList p upd₂ ((a, b) :: t) = (a, upd₂ b) :: updList p upd₂ t from by
            rw [updList, if_pos ha],
          h (a, b) (List.mem_cons_self _ _) ha, ht]
      · rw [show updList p upd₁ ((a, b) :: t) = (a, b) :: updList p upd₁ t from by
            rw [updList, if_neg ha],
          show updList p upd₂ ((a, b) :: t) = (a, b) :: updList p upd₂ t from by
            rw [updList, if_neg ha], ht]

theorem mem_updList_at_key {β : Type} (p : String) (upd : β → β) (l : List (String × β))
    (x : String × β) (hx : x ∈ updList p upd l) (hk : x.1 = p) :
    ∃ b, (p, b) ∈ l ∧ x = (p, upd b) := by
  induction l with
  | nil => cases hx
  | cons e t ih =>
      obtain ⟨a, b⟩ := e
      by_cases ha : a = p
      · rw [show updList p upd ((a, b) :: t) = (a, upd b) :: updList p upd t from by
          rw [updList, if_pos ha]] at hx
        rcases List.mem_cons.1 hx with rfl | hx'
        · exact ⟨b, by rw [← ha]; exact ⟨List.mem_cons_self _ _, rfl⟩⟩
        · obtain ⟨c, hc, hxc⟩ := ih hx'
          exact ⟨c, List.mem_cons_of_mem _ hc, hxc⟩
      · rw [show updList p upd ((a, b) :: t) = (a, b) :: updList p upd t from by
          rw [updList, if_neg ha]] at hx
        rcases List.mem_cons.1 hx with rfl | hx'
        · exact absurd hk ha
        · obtain ⟨c, hc, hxc⟩ := ih hx'
          exact ⟨c, List.mem_cons_of_mem _ hc, hxc⟩

/-- Every entry stored at the upserted path carries the written fields. -/
theorem upsert_entries_at_path (db : Ledger) (now : Time) (path : String)
    (size : Option Int) (mtime : Option Mtime) (sha1 : Option String) (status : String)
    (video_id : Option String) (error : Option String) (pr : String × Row)
    (hpr : pr ∈ db_upsert db now path size mtime sha1 status video_id error)
    (hk : pr.1 = path) :
    pr.2.size = size ∧ pr.2.mtime = mtime ∧ pr.2.sha1 = sha1 ∧ pr.2.status = status
      ∧ pr.2.video_id = video_id ∧ pr.2.error = error ∧ pr.2.updated_at = now := by
  rcases hl : List.lookup path db with _ | r₀ <;> simp only [db_upsert, hl] at hpr
  · rcases List.mem_append.1 hpr with h' | h'
    · exact absurd hk ((lookup_eq_none_forall path db).1 hl pr h')
    · rcases List.mem_singleton.1 h' with rfl
      exact ⟨rfl, rfl, rfl, rfl, rfl, rfl, rfl⟩
  · obtain ⟨b, _, hxb⟩ := mem_updList_at_key path _ db pr hpr hk
    rw [hxb]
    exact ⟨rfl, rfl, rfl, rfl, rfl, rfl, rfl⟩

/-- The upserted path is present afterwards. -/
theorem upsert_lookup_isSome (db : Ledger) (now : Time) (path : String)
    (size : Option Int) (mtime : Option Mtime) (sha1 : Option String) (status : String)
    (video_id : Option String) (error : Option String) :
    (List.lookup path (db_upsert db now path size mtime sha1 status video_id error)).isSome
      = true := by
  have h := upsert_lookup_self db now path size mtime sha1 status video_id error
  cases hl : List.lookup path (db_upsert db now path size mtime sha1 status video_id error) with
  | none => rw [hl] at h; cases h
  | some r => rfl

/-! ## Step lemmas for the upload loop -/

/-- A quota-classified HTTP error (status 400/403/429 and a quota reason)
raises `QuotaExceeded` at once: no sleep, no further chunk consumed,
whatever the retry counter. -/
theorem resumable_quota_step (mr retry : Nat) (e : HErr) (rest : List ChunkEvent)
    (h : isQuotaHttp e = true) :
    resumable_upload mr retry (ChunkEvent.httpErr e :: rest)
      = (UploadResult.quotaExceeded (joinReasons (parse_error_reasons e)), []) := by
  simp only [resumable_upload]
  rw [if_pos h]

/-- A 5xx-status error with retry budget left sleeps `2 ^ (retry+1)` and
continues the loop with the incremented counter. -/
theorem resumable_transient_retry (mr retry : Nat) (e : HErr) (rest : List ChunkEvent)
    (hq : isQuotaHttp e = false) (ht : isTransientStatus e = true) (hr : retry < mr) :
    resumable_upload mr retry (ChunkEvent.httpErr e :: rest)
      = ((resumable_upload mr (retry + 1) rest).1,
         2 ^ (retry + 1) :: (resumable_upload mr (retry + 1) rest).2) := by
  simp only [resumable_upload]
  rw [if_neg (by rw [hq]; exact Bool.false_ne_true),
    if_pos (by rw [ht, decide_eq_true hr]; rfl)]

/-- A 5xx-status error with the budget exhausted is re-raised fatally. -/
theorem resumable_transient_exhausted (mr retry : Nat) (e : HErr) (rest : List ChunkEvent)
    (hq : isQuotaHttp e = false) (hr : ¬retry < mr) :
    resumable_upload mr retry (ChunkEvent.httpErr e :: rest)
      = (UploadResult.fatalHttp e, []) := by
  simp only [resumable_upload]
  rw [if_neg (by rw [hq]; exact Bool.false_ne_true),
    if_neg (by rw [decide_eq_false hr]; simp)]

/-- An HTTP error that is neither quota-classified nor 5xx is re-raised
immediately, with retry budget remaining or not. -/
theorem resumable_http_other_fatal (mr retry : Nat) (e : HErr) (rest : List ChunkEvent)
    (hq : isQuotaHttp e = false) (ht : isTransientStatus e = false) :
    resumable_upload mr retry (ChunkEvent.httpErr e :: rest)
      = (UploadResult.fatalHttp e, []) := by
  simp only [resumable_upload]
  rw [if_neg (by rw [hq]; exact Bool.false_ne_true),
    if_neg (by rw [ht]; simp)]

/-- A non-HTTP exception with budget left sleeps `2 ^ (retry+1)` and
continues. -/
theorem resumable_other_retry (mr retry : Nat) (msg : String) (rest : List ChunkEvent)
    (hr : retry < mr) :
    resumable_upload mr retry (ChunkEvent.otherErr msg :: rest)
      = ((resumable_upload mr (retry + 1) rest).1,
         2 ^ (retry + 1) :: (resumable_upload mr (retry + 1) rest).2) := by
  simp only [resumable_upload]
  rw [if_pos hr]

/-- A non-HTTP exception with the budget exhausted is re-raised fatally. -/
theorem resumable_other_exhausted (mr retry : Nat) (msg : String) (rest : List ChunkEvent)
    (hr : ¬retry < mr) :
    resumable_upload mr retry (ChunkEvent.otherErr msg :: rest)
      = (UploadResult.fatalOther msg, []) := by
  simp only [resumable_upload]
  rw [if_neg hr]

/-- Unfolding one step of the backoff-sleep schedule. -/
theorem range_map_pow_succ (retry k : Nat) :
    (List.range (k + 1)).map (fun i => 2 ^ (retry + i + 1))
      = 2 ^ (retry + 1) :: (List.range k).map (fun i => 2 ^ (retry + 1 + i + 1)) := by
  rw [List.range_succ_eq_map, List.map_cons, List.map_map]
  refine congrArg₂ _ (by simp) ?_
  refine List.map_congr_left (fun i _ => ?_)
  simp only [Function.comp_apply]
  congr 1
  omega

/-- The full backoff schedule on a run of `n ≤ budget` generic failures
followed by success: sleeps `2^(retry+1), …, 2^(retry+n)`, then the id. -/
theorem resumable_schedule_ok (mr : Nat) (msg v : String) :
    ∀ (n retry : Nat), retry + n ≤ mr →
      resumable_upload mr retry
          (List.replicate n (ChunkEvent.otherErr msg) ++ [ChunkEvent.complete [("id", v)]])
        = (UploadResult.ok v, (List.range n).map (fun i => 2 ^ (retry + i + 1))) := by
  intro n
  induction n with
  | zero =>
      intro retry _
      simp [resumable_upload, List.lookup]
  | succ k ih =>
      intro retry h
      rw [List.replicate_succ, List.cons_append,
        resumable_other_retry mr retry msg _ (by omega), ih (retry + 1) (by omega)]
      rw [range_map_pow_succ retry k]

/-- Exceeding the budget: `mr` failed retries (with their full backoff
schedule) followed by one more generic failure surfaces it fatally. -/
theorem resumable_schedule_fatal (mr : Nat) (msg : String) :
    ∀ (n retry : Nat), retry + n = mr →
      resumable_upload mr retry (List.replicate (n + 1) (ChunkEvent.otherErr msg))
        = (UploadResult.fatalOther msg, (List.range n).map (fun i => 2 ^ (retry + i + 1))) := by
  intro n
  induction n with
  | zero =>
      intro retry h
      rw [List.replicate_succ, List.replicate_zero,
        resumable_other_exhausted mr retry msg _ (by omega)]
      rfl
  | succ k ih =>
      intro retry h
      rw [List.replicate_succ,
        resumable_other_retry mr retry msg _ (by omega), ih (retry + 1) (by omega)]
      rw [range_map_pow_succ retry k]

/-- The `(status, video_id, error)` view of a freshly upserted row. -/
theorem upsert_lookup_sve (db : Ledger) (now : Time) (path : String)
    (size : Option Int) (mtime : Option Mtime) (sha1 : Option String) (status : String)
    (video_id : Option String) (error : Option String) :
    (List.lookup path (db_upsert db now path size mtime sha1 status video_id error)).map
        (fun q => (q.status, q.video_id, q.error)) = some (status, video_id, error) := by
  have h := upsert_lookup_self db now path size mtime sha1 status video_id error
  cases hl : List.lookup path (db_upsert db now path size mtime sha1 status video_id error) with
  | none => rw [hl] at h; cases h
  | some q =>
      rw [hl] at h
      simp only [Option.map_some', Option.some.injEq, Prod.mk.injEq] at h
      obtain ⟨_, _, _, h4, h5, h6, _⟩ := h
      simp [h4, h5, h6]

/-! ## Claim theorems -/

/-- C10: for every integer `minutes` argument `m`, `set_pause` writes a
pause-until timestamp equal to `now + max(1, m) * 60` seconds, hence always
a pause of at least 60 seconds — also for zero or negative
`quota_cooldown_minutes`. -/
theorem C10_set_pause_clamped (now : Time) (m : Int) :
    set_pause now m = now + max 1 m * 60 ∧ 60 ≤ set_pause now m - now := by
  refine ⟨rfl, ?_⟩
  unfold set_pause
  have h1 : (1 : Int) ≤ max 1 m := le_max_left 1 m
  nlinarith

/-- C8: upsert is idempotent — repeating `db_upsert` with identical
arguments only rewrites `updated_at` at that path (every other field,
`created_at` included, is preserved), and creates no new row. -/
theorem C8_upsert_idempotent (db : Ledger) (t₁ t₂ : Time) (path : String)
    (size : Option Int) (mtime : Option Mtime) (sha1 : Option String) (status : String)
    (video_id : Option String) (error : Option String) :
    db_upsert (db_upsert db t₁ path size mtime sha1 status video_id error)
        t₂ path size mtime sha1 status video_id error
      = updList path (fun r => { r with updated_at := t₂ })
          (db_upsert db t₁ path size mtime sha1 status video_id error)
    ∧ (db_upsert (db_upsert db t₁ path size mtime sha1 status video_id error)
        t₂ path size mtime sha1 status video_id error).length
      = (db_upsert db t₁ path size mtime sha1 status video_id error).length := by
  have hsome := upsert_lookup_isSome db t₁ path size mtime sha1 status video_id error
  have hmain : db_upsert (db_upsert db t₁ path size mtime sha1 status video_id error)
      t₂ path size mtime sha1 status video_id error
    = updList path (fun r => { r with updated_at := t₂ })
        (db_upsert db t₁ path size mtime sha1 status video_id error) := by
    have hmem : ∀ x ∈ db_upsert db t₁ path size mtime sha1 status video_id error,
        x.1 = path →
        x.2.size = size ∧ x.2.mtime = mtime ∧ x.2.sha1 = sha1 ∧ x.2.status = status
          ∧ x.2.video_id = video_id ∧ x.2.error = error ∧ x.2.updated_at = t₁ :=
      fun x hx hk =>
        upsert_entries_at_path db t₁ path size mtime sha1 status video_id error x hx hk
    generalize hg : db_upsert db t₁ path size mtime sha1 status video_id error = db₁ at hsome hmem ⊢
    cases hl : List.lookup path db₁ with
    | none => rw [hl] at hsome; cases hsome
    | some r₀ =>
        simp only [db_upsert, hl]
        refine updList_congr path _ _ _ (fun x hx hk => ?_)
        obtain ⟨h1, h2, h3, h4, h5, h6, _⟩ := hmem x hx hk
        obtain ⟨a, r⟩ := x
        dsimp only at h1 h2 h3 h4 h5 h6 ⊢
        rw [← h1, ← h2, ← h3, ← h4, ← h5, ← h6]
  refine ⟨hmain, ?_⟩
  rw [hmain, updList_length]

/-- C9: the debounce logic of the watcher — `trigger` (re)arms a
`debounce`-long timer and records the burst window; when the timer fires,
the pass runs iff `settle` seconds have elapsed since the last event or
`max_debounce` seconds since the first, the burst window being cleared on a
run and the timer re-armed otherwise.  (`fv ≠ 0` keeps the Python
truthiness of `self._first_event_ts or time.time()` out of the way: `0` is
falsy.) -/
theorem C9_debounce_policy (cfg : WatchCfg) (now : Time) (s : RunnerState)
    (tm : Option Time) (fv l : Time) (hfv : fv ≠ 0) :
    trigger false cfg now s
      = { timer := some (now + cfg.debounce), first := some (s.first.getD now),
          last := some now }
    ∧ ((cfg.settle ≤ now - l ∨ cfg.max_debounce ≤ now - fv) →
        maybe_run false cfg now ⟨tm, some fv, some l⟩
          = ({ timer := none, first := none, last := none }, true))
    ∧ (¬(cfg.settle ≤ now - l ∨ cfg.max_debounce ≤ now - fv) →
        maybe_run false cfg now ⟨tm, some fv, some l⟩
          = ({ timer := some (now + cfg.debounce), first := some fv, last := some l }, false))
    ∧ ((maybe_run false cfg now ⟨tm, some fv, some l⟩).2 = true
        ↔ (cfg.settle ≤ now - l ∨ cfg.max_debounce ≤ now - fv)) := by
  have htrig : trigger false cfg now s
      = { timer := some (now + cfg.debounce), first := some (s.first.getD now),
          last := some now } := by
    unfold trigger
    rw [if_neg (by decide)]
    cases s.first <;> rfl
  have hrun : ∀ h : cfg.settle ≤ now - l ∨ cfg.max_debounce ≤ now - fv,
      maybe_run false cfg now ⟨tm, some fv, some l⟩
        = ({ timer := none, first := none, last := none }, true) := by
    intro h
    unfold maybe_run
    rw [if_neg (by decide)]
    dsimp only
    rw [if_neg hfv, if_pos h]
  have hwait : ∀ _ : ¬(cfg.settle ≤ now - l ∨ cfg.max_debounce ≤ now - fv),
      maybe_run false cfg now ⟨tm, some fv, some l⟩
        = ({ timer := some (now + cfg.debounce), first := some fv, last := some l }, false) := by
    intro h
    unfold maybe_run
    rw [if_neg (by decide)]
    dsimp only
    rw [if_neg hfv, if_neg h]
  refine ⟨htrig, hrun, hwait, ?_⟩
  by_cases h : cfg.settle ≤ now - l ∨ cfg.max_debounce ≤ now - fv
  · rw [hrun h]
    exact ⟨fun _ => h, fun _ => rfl⟩
  · rw [hwait h]
    exact ⟨fun hc => (Bool.false_ne_true hc).elim, fun hc => absurd hc h⟩

/-- C9 witness: a concrete fire 100s after the last event with
`settle = 60` runs the pass and clears the window. -/
theorem C9_debounce_policy_witness :
    trigger false ⟨90, 60, 900⟩ 40 ⟨none, none, none⟩
      = { timer := some 130, first := some 40, last := some 40 }
    ∧ maybe_run false ⟨90, 60, 900⟩ 130 ⟨some 130, some 40, some 40⟩
      = ({ timer := none, first := none, last := none }, true) := by
  obtain ⟨h1, h2, _, _⟩ :=
    C9_debounce_policy ⟨90, 60, 900⟩ 40 ⟨none, none, none⟩ (some 130) 40 40 (by decide)
  refine ⟨h1, ?_⟩
  obtain ⟨_, h2', _, _⟩ :=
    C9_debounce_policy ⟨90, 60, 900⟩ 130 ⟨none, none, none⟩ (some 130) 40 40 (by decide)
  exact h2' (by decide)

/-- C3 counterexample: a chunk error that IS quota-classified (structured
reason `quotaExceeded`) but arrives with HTTP status 500 is NOT raised as
`QuotaExceeded`: the loop sleeps 2 s, retries, and returns the next
chunk's id — the claim's "raises QuotaExceeded immediately" is false for
it, because the code additionally requires status 400/403/429. -/
theorem C3_counterexample :
    is_quota_reason (parse_error_reasons errQuota500) = true
    ∧ resumable_upload 3 0
        [ChunkEvent.httpErr errQuota500, ChunkEvent.complete [("id", "v")]]
        = (UploadResult.ok "v", [2])
    ∧ (UploadResult.ok "v" : UploadResult)
        ≠ UploadResult.quotaExceeded (joinReasons (parse_error_reasons errQuota500)) := by
  refine ⟨by decide, by decide, by decide⟩

/-- C3 (amended): on a chunk error with HTTP status 400, 403 or 429 whose
parsed reasons contain a quota marker (structured reasons or
case-insensitive text fallback), `resumable_upload` raises `QuotaExceeded`
immediately — no sleep, no retry — regardless of the retry budget
remaining. -/
theorem C3_quota_immediate (mr retry : Nat) (e : HErr) (rest : List ChunkEvent)
    (hsc : e.statusCode = some 400 ∨ e.statusCode = some 403 ∨ e.statusCode = some 429)
    (hq : is_quota_reason (parse_error_reasons e) = true) :
    resumable_upload mr retry (ChunkEvent.httpErr e :: rest)
      = (UploadResult.quotaExceeded (joinReasons (parse_error_reasons e)), []) := by
  refine resumable_quota_step mr retry e rest ?_
  unfold isQuotaHttp
  rw [hq, Bool.and_true]
  rcases hsc with h | h | h <;> simp [h]

/-- C3 witness: a 403 rate-limit error stops the loop at once even with
zero retries spent of a budget of 3 — and even when invoked with the
counter already past the budget. -/
theorem C3_quota_immediate_witness :
    resumable_upload 3 0 [ChunkEvent.httpErr errRate403]
      = (UploadResult.quotaExceeded "userratelimitexceeded", [])
    ∧ resumable_upload 3 99 [ChunkEvent.httpErr errRate403]
      = (UploadResult.quotaExceeded "userratelimitexceeded", []) := by
  have h0 := C3_quota_immediate 3 0 errRate403 [] (Or.inr (Or.inl rfl)) (by decide)
  have h99 := C3_quota_immediate 3 99 errRate403 [] (Or.inr (Or.inl rfl)) (by decide)
  rw [show joinReasons (parse_error_reasons errRate403) = "userratelimitexceeded" from by
    decide] at h0 h99
  exact ⟨h0, h99⟩

/-- C4 counterexample: a 404 is not quota-classified and retry budget
remains (0 < 3), yet `resumable_upload` performs NO retry: it re-raises
the error immediately (empty sleep list, fatal result) even though the
very next chunk would have succeeded — so the claimed "one retry/backoff
policy for every non-quota error" is false; only non-HTTP exceptions and
5xx-status HTTP errors are retried. -/
theorem C4_counterexample :
    is_quota_reason (parse_error_reasons errNotFound404) = false
    ∧ (0 : Nat) < 3
    ∧ resumable_upload 3 0
        [ChunkEvent.httpErr errNotFound404, ChunkEvent.complete [("id", "v")]]
        = (UploadResult.fatalHttp errNotFound404, []) := by
  refine ⟨by decide, by decide, by decide⟩

/-- C4 (amended): the exponential retry policy, branch by branch.
(a) a non-quota 5xx error with budget left sleeps `2^(attempt)` seconds
(base 2, `attempt` = the incremented counter) and retries; (b) the same
error past the budget is fatal; (c)/(d) likewise for any non-HTTP
exception; (e) a non-quota, non-5xx HTTP error is fatal immediately,
without consuming budget; (f) `n ≤ maxRetries` generic failures before a
success produce exactly the sleeps `2^1, …, 2^n`; (g) `maxRetries + 1`
consecutive generic failures surface the error fatally after the full
schedule `2^1, …, 2^maxRetries`. -/
theorem C4_retry_policy :
    (∀ (mr retry : Nat) (e : HErr) (rest : List ChunkEvent),
      isQuotaHttp e = false → isTransientStatus e = true → retry < mr →
      resumable_upload mr retry (ChunkEvent.httpErr e :: rest)
        = ((resumable_upload mr (retry + 1) rest).1,
           2 ^ (retry + 1) :: (resumable_upload mr (retry + 1) rest).2))
    ∧ (∀ (mr retry : Nat) (e : HErr) (rest : List ChunkEvent),
      isQuotaHttp e = false → ¬retry < mr →
      resumable_upload mr retry (ChunkEvent.httpErr e :: rest)
        = (UploadResult.fatalHttp e, []))
    ∧ (∀ (mr retry : Nat) (msg : String) (rest : List ChunkEvent),
      retry < mr →
      resumable_upload mr retry (ChunkEvent.otherErr msg :: rest)
        = ((resumable_upload mr (retry + 1) rest).1,
           2 ^ (retry + 1) :: (resumable_upload mr (retry + 1) rest).2))
    ∧ (∀ (mr retry : Nat) (msg : String) (rest : List ChunkEvent),
      ¬retry < mr →
      resumable_upload mr retry (ChunkEvent.otherErr msg :: rest)
        = (UploadResult.fatalOther msg, []))
    ∧ (∀ (mr retry : Nat) (e : HErr) (rest : List ChunkEvent),
      isQuotaHttp e = false → isTransientStatus e = false →
      resumable_upload mr retry (ChunkEvent.httpErr e :: rest)
        = (UploadResult.fatalHttp e, []))
    ∧ (∀ (mr n : Nat) (msg v : String), n ≤ mr →
      resumable_upload mr 0
          (List.replicate n (ChunkEvent.otherErr msg) ++ [ChunkEvent.complete [("id", v)]])
        = (UploadResult.ok v, (List.range n).map (fun i => 2 ^ (0 + i + 1))))
    ∧ (∀ (mr : Nat) (msg : String),
      resumable_upload mr 0 (List.replicate (mr + 1) (ChunkEvent.otherErr msg))
        = (UploadResult.fatalOther msg, (List.range mr).map (fun i => 2 ^ (0 + i + 1)))) := by
  refine ⟨resumable_transient_retry, resumable_transient_exhausted,
    resumable_other_retry, resumable_other_exhausted, resumable_http_other_fatal,
    fun mr n msg v hn => resumable_schedule_ok mr msg v n 0 (by omega),
    fun mr msg => resumable_schedule_fatal mr msg mr 0 (by omega)⟩

/-- C4 witness: two generic failures then success under a budget of 3
yield exactly the sleeps `[2, 4]`; a non-quota 500 with budget is retried. -/
theorem C4_retry_policy_witness :
    (2 : Nat) ≤ 3
    ∧ resumable_upload 3 0
        (List.replicate 2 (ChunkEvent.otherErr "boom") ++ [ChunkEvent.complete [("id", "v")]])
        = (UploadResult.ok "v", (List.range 2).map (fun i => 2 ^ (0 + i + 1)))
    ∧ resumable_upload 3 0 [ChunkEvent.httpErr errServer500, ChunkEvent.complete [("id", "v")]]
        = ((resumable_upload 3 1 [ChunkEvent.complete [("id", "v")]]).1,
           2 ^ 1 :: (resumable_upload 3 1 [ChunkEvent.complete [("id", "v")]]).2) := by
  refine ⟨by decide, C4_retry_policy.2.2.2.2.2.1 3 2 "boom" "v" (by decide), ?_⟩
  exact C4_retry_policy.1 3 0 errServer500 [ChunkEvent.complete [("id", "v")]]
    (by decide) (by decide) (by decide)

/-- C5 witness: `fileA` against its `done` row (sizes equal, mtimes equal
at integer-second granularity though differing below the second, sha1
disabled) — the skip equivalence at a concrete input. -/
theorem C5_unchanged_skip_iff_witness :
    processFile cfgHydrate [] [("/v/a.mp4", rowDoneA)] 7 fileA (POutcome.failure "x")
        = ([("/v/a.mp4", rowDoneA)], Action.skipped)
      ↔ (rowDoneA.status = "done" ∧ rowDoneA.size = some fileA.size
          ∧ rowDoneA.mtime.map Mtime.sec = some fileA.mtime.sec
          ∧ (cfgHydrate.use_sha1 = false ∨ rowDoneA.sha1 = sha1val cfgHydrate fileA)) :=
  C5_unchanged_skip_iff cfgHydrate [] [("/v/a.mp4", rowDoneA)] 7 fileA
    (POutcome.failure "x") rowDoneA (by decide)

/-- C2 counterexample: with `quota_cooldown_minutes = 0`, the pause
timestamp written after a `QuotaExceeded` is `now + 60` (because
`set_pause` clamps the cooldown to at least one minute), not the claimed
`now + quotaCooldownMinutes * 60 = now + 0`. -/
theorem C2_counterexample :
    (mainPass cfgPlain 100 none (fun _ => false) (fun _ => none) []
        (fun _ => POutcome.quota "quotaExceeded") [fileA] []).pause = some 160
    ∧ (160 : Time) ≠ 100 + 0 * 60 := by
  refine ⟨by decide, by decide⟩

/-- C2 (amended): a `QuotaExceeded` during the pass (a) leaves the
triggering item `pending` — the only row written for it is the pre-upload
`pending` upsert — and stops the run with no further file processed,
(b) durably writes the pause timestamp `now + max(1, quotaCooldownMinutes) * 60`,
and (c) any invocation whose start time is before that timestamp is a
clean no-op: no ledger write, no upload, early return. -/
theorem C2_quota_pause (cfg : Config) (map : List (String × String))
    (oracle : FileInfo → POutcome) (now : Time) (db : Ledger) (f : FileInfo)
    (rest : List FileInfo) (r : String) (cfg' : Config) (now' : Time)
    (exO : String → Bool) (stO : String → Option (Int × Mtime))
    (items : List (String × Option String)) (oracle' : FileInfo → POutcome)
    (files' : List FileInfo) (db' : Ledger)
    (hskip : ∀ row, List.lookup f.path db = some row →
      (row.status == "done" && unchangedRow cfg row f) = false)
    (hmap : cfg.hydrate = true → List.lookup (titleKey f) map = none)
    (horacle : oracle f = POutcome.quota r)
    (hlt : now' < set_pause now cfg.quota_cooldown_minutes) :
    runFiles cfg map oracle now db (f :: rest)
      = (db_upsert db now f.path (some f.size) (some f.mtime) (sha1val cfg f)
          "pending" none none,
         some (set_pause now cfg.quota_cooldown_minutes), [f.path])
    ∧ (List.lookup f.path (db_upsert db now f.path (some f.size) (some f.mtime)
        (sha1val cfg f) "pending" none none)).map (fun q => (q.status, q.video_id, q.error))
      = some ("pending", none, none)
    ∧ set_pause now cfg.quota_cooldown_minutes
      = now + max 1 cfg.quota_cooldown_minutes * 60
    ∧ mainPass cfg' now' (some (set_pause now cfg.quota_cooldown_minutes))
        exO stO items oracle' files' db'
      = { db := db', pause := some (set_pause now cfg.quota_cooldown_minutes),
          uploads := [], ran := false } :=
  ⟨runFiles_quota cfg map oracle now db f rest r hskip hmap horacle,
   upsert_lookup_sve db now f.path (some f.size) (some f.mtime) (sha1val cfg f)
     "pending" none none,
   rfl,
   mainPass_paused cfg' now' (set_pause now cfg.quota_cooldown_minutes) hlt
     exO stO items oracle' files' db'⟩

/-- C2 witness: the quota scenario at a concrete input (`fileA`, empty
ledger, cooldown 0 minutes clamping to 60 s, second invocation at time 0
before the pause expiry). -/
theorem C2_quota_pause_witness :
    runFiles cfgPlain [] (fun _ => POutcome.quota "q") 100 [] [fileA]
      = (db_upsert [] 100 fileA.path (some fileA.size) (some fileA.mtime)
          (sha1val cfgPlain fileA) "pending" none none,
         some (set_pause 100 cfgPlain.quota_cooldown_minutes), [fileA.path])
    ∧ (List.lookup fileA.path (db_upsert [] 100 fileA.path (some fileA.size)
        (some fileA.mtime) (sha1val cfgPlain fileA) "pending" none none)).map
          (fun q => (q.status, q.video_id, q.error)) = some ("pending", none, none)
    ∧ set_pause 100 cfgPlain.quota_cooldown_minutes
      = 100 + max 1 cfgPlain.quota_cooldown_minutes * 60
    ∧ mainPass cfgPlain 0 (some (set_pause 100 cfgPlain.quota_cooldown_minutes))
        (fun _ => false) (fun _ => none) [] (fun _ => POutcome.quota "q") [] []
      = { db := [], pause := some (set_pause 100 cfgPlain.quota_cooldown_minutes),
          uploads := [], ran := false } :=
  C2_quota_pause cfgPlain [] (fun _ => POutcome.quota "q") 100 [] fileA [] "q"
    cfgPlain 0 (fun _ => false) (fun _ => none) [] (fun _ => POutcome.quota "q") [] []
    (fun _ h => by cases h) (fun h => by cases h) rfl (by decide)

/-- C6 counterexample: a file whose stem carries surrounding whitespace is
reconciled against the remote title `"vacation clip"` — matched `done`
with id `abc123` — although its extension-stripped base name is not
case-insensitively equal to that title; the code strips whitespace on both
sides before comparing, which the claim's "case-insensitive exact match of
the base name" does not allow. -/
theorem C6_counterexample :
    (processFile cfgHydrate (fetch_existing_titles [("vacation clip", some "abc123")])
        [] 0 fileVacationPadded (POutcome.failure "boom")).2 = Action.markedDone "abc123"
    ∧ pyLower fileVacationPadded.stem ≠ pyLower "vacation clip" := by
  refine ⟨by decide, by decide⟩

/-- C6 (amended): the reconciliation scenario — remote index
`{"vacation clip" ↦ "abc123"}`, freshly discovered `vacation clip.mp4`
with no ledger row — ends the pass with the item `done` under id
`"abc123"` and the Transfer Engine never invoked, whatever the uploader
would have answered; and matching is a case-insensitive exact comparison
after stripping surrounding whitespace from both the local base name
(extension dropped) and the remote title. -/
theorem C6_reconciliation (now : Time) (oracle : FileInfo → POutcome)
    (exO : String → Bool) (stO : String → Option (Int × Mtime))
    (stem title vid : String)
    (ht : pyLower (pyStrip title) ≠ "") (hv : vid ≠ "") :
    ((mainPass cfgHydrate now none exO stO [("vacation clip", some "abc123")] oracle
        [fileVacation] []).db.lookup fileVacation.path).map
          (fun q => (q.status, q.video_id)) = some ("done", some "abc123")
    ∧ (mainPass cfgHydrate now none exO stO [("vacation clip", some "abc123")] oracle
        [fileVacation] []).uploads = []
    ∧ (mainPass cfgHydrate now none exO stO [("vacation clip", some "abc123")] oracle
        [fileVacation] []).ran = true
    ∧ (List.lookup (pyLower (pyStrip stem)) (fetch_existing_titles [(title, some vid)])
        = some vid ↔ pyLower (pyStrip stem) = pyLower (pyStrip title)) := by
  refine ⟨rfl, rfl, rfl, ?_⟩
  have hmap : fetch_existing_titles [(title, some vid)]
      = [(pyLower (pyStrip title), vid)] := by
    unfold fetch_existing_titles
    rw [List.foldl_cons, List.foldl_nil]
    dsimp only
    rw [if_pos (by simp [ht, hv])]
    simp [dictInsert, List.lookup]
  rw [hmap]
  cases hkt : pyLower (pyStrip stem) == pyLower (pyStrip title) with
  | true =>
      obtain h := beq_iff_eq.1 hkt
      simp [List.lookup, hkt, h]
  | false =>
      obtain h := beq_eq_false_iff_ne.1 hkt
      simp [List.lookup, hkt, h]

/-- C6 witness: the matching policy holds at concrete inputs — a padded,
case-shifted stem matches after trimming and lowercasing. -/
theorem C6_reconciliation_witness :
    ((mainPass cfgHydrate 0 none (fun _ => false) (fun _ => none)
        [("vacation clip", some "abc123")] (fun _ => POutcome.failure "boom")
        [fileVacation] []).db.lookup fileVacation.path).map
          (fun q => (q.status, q.video_id)) = some ("done", some "abc123")
    ∧ (mainPass cfgHydrate 0 none (fun _ => false) (fun _ => none)
        [("vacation clip", some "abc123")] (fun _ => POutcome.failure "boom")
        [fileVacation] []).uploads = []
    ∧ (mainPass cfgHydrate 0 none (fun _ => false) (fun _ => none)
        [("vacation clip", some "abc123")] (fun _ => POutcome.failure "boom")
        [fileVacation] []).ran = true
    ∧ (List.lookup (pyLower (pyStrip " Vacation Clip "))
        (fetch_existing_titles [("vacation clip", some "abc123")]) = some "abc123"
        ↔ pyLower (pyStrip " Vacation Clip ") = pyLower (pyStrip "vacation clip")) :=
  C6_reconciliation 0 (fun _ => POutcome.failure "boom") (fun _ => false) (fun _ => none)
    " Vacation Clip " "vacation clip" "abc123" (by decide) (by decide)

/-- C7: with revalidation enabled, every `done` WorkItem whose (non-empty)
remote id the batched existence check reports missing is reset to
`pending` with the explanatory note in its error column; and the pass
applies revalidation to the ledger before reconciliation and before the
upload loop reads it. -/
theorem C7_revalidation_resets (exO : String → Bool) (stO : String → Option (Int × Mtime))
    (now : Time) (db : Ledger) (path : String) (row : Row) (vid : String)
    (cfg : Config) (remoteItems : List (String × Option String))
    (oracle : FileInfo → POutcome) (files : List FileInfo)
    (hnd : (db.map Prod.fst).Nodup)
    (hl : List.lookup path db = some row)
    (hst : row.status = "done") (hvid : row.video_id = some vid)
    (hv : vid ≠ "") (hex : exO vid = false)
    (hflag : cfg.reupload_flag = true) :
    (List.lookup path (revalidate true exO stO now db)).map
        (fun q => (q.status, q.video_id, q.error))
      = some ("pending", none, some revalNote)
    ∧ (mainPass cfg now none exO stO remoteItems oracle files db).db
      = (runFiles cfg (if cfg.hydrate then fetch_existing_titles remoteItems else [])
          oracle now (revalidate true exO stO now db) files).1 := by
  constructor
  · rw [revalidate, if_pos rfl]
    refine revalFold_lookup_hit exO stO now (doneRows db) db path vid
      (doneRows_mem db path row vid hl hst hvid) ?_ hv hex
    exact (doneRows_keys_sublist db).nodup hnd
  · unfold mainPass
    dsimp only
    rw [hflag]
    rfl

/-- C7 witness: a one-row ledger whose `done` id `"xyz"` the existence
check reports missing is reset to `pending` with the note. -/
theorem C7_revalidation_resets_witness :
    (List.lookup "p" (revalidate true (fun _ => false) (fun _ => none) 9
        [("p", rowDoneXyz)])).map (fun q => (q.status, q.video_id, q.error))
      = some ("pending", none, some revalNote)
    ∧ (mainPass cfgReval 9 none (fun _ => false) (fun _ => none) []
        (fun _ => POutcome.failure "x") [] [("p", rowDoneXyz)]).db
      = (runFiles cfgReval (if cfgReval.hydrate then fetch_existing_titles [] else [])
          (fun _ => POutcome.failure "x") 9
          (revalidate true (fun _ => false) (fun _ => none) 9 [("p", rowDoneXyz)]) []).1 :=
  C7_revalidation_resets (fun _ => false) (fun _ => none) 9 [("p", rowDoneXyz)]
    "p" rowDoneXyz "xyz" cfgReval [] (fun _ => POutcome.failure "x") []
    (by decide) (by decide) (by decide) (by decide) (by decide) rfl rfl

/-- C1 counterexample: two program-written rows refute the claimed
invariant.  First, the revalidation reset writes a row with status
`pending` and a non-NULL `error` note, refuting "`lastError` is set if and
only if `status = error`".  Second, when `resumable_upload` returns `None`
— an id-less final response raises `RuntimeError`, the generic handler
with budget left (0 < 3 here) sleeps 2 s and continues, the loop exits on
the non-`None` response and the function falls off its end — the loop body
writes a `done` row with NULL `video_id`, refuting "`remoteId` is set if
and only if `status = done`". -/
theorem C1_counterexample :
    revalidate true (fun _ => false) (fun _ => none) 5 [("p", rowDoneXyz)]
      = [("p", rowAfterReval)]
    ∧ ¬RowInvClaimed rowAfterReval
    ∧ resumable_upload 3 0 [ChunkEvent.complete [("status", "uploaded")]]
      = (UploadResult.returnedNone, [2])
    ∧ processFile cfgPlain [] [] 7 fileA (POutcome.success none)
      = ([(fileA.path, rowDoneNoneVid)], Action.uploaded none)
    ∧ ¬RowInvClaimed rowDoneNoneVid := by
  refine ⟨by decide, by decide, by decide, by decide, by decide⟩

/-- C1 (amended): every row the pass writes — initial `pending` upsert,
reconciliation mark-done, post-upload mark-done, error mark, revalidation
reset — satisfies: a set `video_id` implies `status = done` (the converse
fails: an upload returning `None` after an id-less final response is
marked `done` with NULL `video_id`), and `error` is set iff
`status = error` or the row is the revalidation reset, whose fixed note
sits in the `error` column of a `pending` row.  In particular no row is
ever `done` with an error set or `error` with a remote id set.  Stated as
preservation over a whole orchestration pass. -/
theorem C1_ledger_invariant (cfg : Config) (now : Time) (pauseFile : Option Time)
    (exO : String → Bool) (stO : String → Option (Int × Mtime))
    (remoteItems : List (String × Option String)) (oracle : FileInfo → POutcome)
    (files : List FileInfo) (db : Ledger) (hdb : LedgerOk db) :
    LedgerOk (mainPass cfg now pauseFile exO stO remoteItems oracle files db).db := by
  unfold mainPass
  cases hcp : check_pause pauseFile now with
  | some u => exact hdb
  | none =>
      dsimp only
      exact ledgerOk_runFiles _ _ _ _ _ _ (ledgerOk_revalidate _ _ _ _ _ hdb)

/-- C1 witness: a pass over a ledger holding a `done` row, with
revalidation resetting it and a new upload returning `None` (so its file
ends `done` with NULL `video_id`), keeps every row in the maintained
invariant. -/
theorem C1_ledger_invariant_witness :
    LedgerOk (mainPass cfgReval 9 none (fun _ => false) (fun _ => none) []
        (fun _ => POutcome.success none) [fileA] [("a", rowDoneXyz)]).db :=
  C1_ledger_invariant cfgReval 9 none (fun _ => false) (fun _ => none) []
    (fun _ => POutcome.success none) [fileA] [("a", rowDoneXyz)] (by decide)

end TubeSync
